import Mathlib

/-!
Verification of the interaction/state-machine layer of the
`frontend-field-notes` UI-primitive library: the bounded toast queue,
the controllable state cell, roving keyboard navigation, the focus
trap, the dropdown typeahead, the form validation engine, the modal
scroll lock, and the dynamic item registries.

Each definition is a shallow embedding of the corresponding TypeScript
function; React state updates are modelled by explicit state passing.
Where an event handler closes over the render-time state (a "snapshot")
while its `setState` calls apply to the latest state, the embedding
makes both states explicit, because the distinction is observable.
-/

namespace FieldNotes

/-! ### Toast queue (src/components/ui/Toast.tsx)

`Toast` mirrors the TS record (the generated `id` is taken as an input,
`duration` already defaulted by the provider).  `addToast` embeds the
`setToasts` updater of `addToast`:

  const updated = prev.length >= maxToasts ? prev.slice(1) : prev;
  return [...updated, toast];
-/

inductive ToastType
  | info | success | warning | error
deriving DecidableEq, Repr

structure Toast where
  id : String
  ttype : ToastType
  title : String
  description : Option String := none
  duration : Nat := 5000
deriving DecidableEq, Repr

def addToast (maxToasts : Nat) (prev : List Toast) (toast : Toast) : List Toast :=
  let updated := if prev.length ≥ maxToasts then prev.drop 1 else prev
  updated ++ [toast]

/-- The queue obtained by enqueueing a whole sequence, starting empty. -/
def enqueueAll (maxToasts : Nat) (ts : List Toast) : List Toast :=
  ts.foldl (addToast maxToasts) []

def toastA : Toast := { id := "A", ttype := .info, title := "A" }
def toastB : Toast := { id := "B", ttype := .info, title := "B" }
def toastC : Toast := { id := "C", ttype := .info, title := "C" }
def toastD : Toast := { id := "D", ttype := .info, title := "D" }

/-! ### Controllable state cell (src/hooks/useControllable.ts)

The cell is modelled by its construction-time `value` prop (`none` in
uncontrolled mode), the `useState` internal value, whether an `onChange`
callback was supplied, and an explicit log of `onChange` invocations.
`setValue` embeds the `useCallback` body of `useControllable`.
-/

inductive SetStateAction (T : Type) where
  | value (v : T)
  | updater (f : T → T)

structure ControllableCell (T : Type) where
  controlledValue : Option T
  internalValue : T
  hasOnChange : Bool
  onChangeCalls : List T

/-- `const value = isControlled ? controlledValue : internalValue`. -/
def readValue {T : Type} (c : ControllableCell T) : T :=
  match c.controlledValue with
  | some v => v
  | none => c.internalValue

/-- `typeof nextValue === "function" ? nextValue(value) : nextValue`. -/
def resolveAction {T : Type} (next : SetStateAction T) (current : T) : T :=
  match next with
  | .value v => v
  | .updater f => f current

/-- The `setValue` callback: update internal state only in uncontrolled
mode, then invoke `onChange` (when provided) with the resolved value. -/
def setValue {T : Type} (c : ControllableCell T) (next : SetStateAction T) :
    ControllableCell T :=
  let resolved := resolveAction next (readValue c)
  let c1 := if c.controlledValue.isSome then c else { c with internalValue := resolved }
  if c.hasOnChange then { c1 with onChangeCalls := c1.onChangeCalls ++ [resolved] } else c1

/-! ### Roving keyboard navigation
(src/components/ui/Modal.tsx `TabsList.handleKeyDown`, and the dropdown
menu's `DropdownMenu.handleKeyDown`)

Indices are `Int` because `Array.prototype.indexOf` yields `-1` for an
absent element and `length - 1` is `-1` for an empty set.  Only the four
navigation keys each handler intercepts are modelled; other keys fall
through the `switch` without changing the selection.
-/

inductive TabsKey
  | arrowLeft | arrowRight | homeKey | endKey
deriving DecidableEq

inductive MenuKey
  | arrowUp | arrowDown | homeKey | endKey
deriving DecidableEq

/-- The spec's abstract navigation commands. -/
inductive RovingCmd
  | previous | next | first | last
deriving DecidableEq

/-- `tabs.indexOf(activeTab)`: first index of the value, `-1` if absent. -/
def jsIndexOf (l : List String) (a : String) : Int :=
  match l.findIdx? (fun x => x == a) with
  | some i => (i : Int)
  | none => -1

/-- `TabsList.handleKeyDown`'s `nextIndex` computation. -/
def tabsNextIndex (key : TabsKey) (currentIndex : Int) (length : Nat) : Int :=
  match key with
  | .arrowLeft => if currentIndex > 0 then currentIndex - 1 else (length : Int) - 1
  | .arrowRight => if currentIndex < (length : Int) - 1 then currentIndex + 1 else 0
  | .homeKey => 0
  | .endKey => (length : Int) - 1

/-- `DropdownMenu.handleKeyDown`'s active-index computation for the four
navigation keys. -/
def menuNextIndex (key : MenuKey) (activeIndex : Int) (length : Nat) : Int :=
  match key with
  | .arrowDown => if activeIndex < (length : Int) - 1 then activeIndex + 1 else 0
  | .arrowUp => if activeIndex > 0 then activeIndex - 1 else (length : Int) - 1
  | .homeKey => 0
  | .endKey => (length : Int) - 1

/-- Modelled from the spec: the spec's key mapping
"previous" → `index>0 ? index-1 : length-1`;
"next" → `index<length-1 ? index+1 : 0`; "first" → 0; "last" → length-1.
Used only to compare the source handlers against the spec's formula. -/
def rovingSpecIndex (cmd : RovingCmd) (index : Int) (length : Nat) : Int :=
  match cmd with
  | .previous => if index > 0 then index - 1 else (length : Int) - 1
  | .next => if index < (length : Int) - 1 then index + 1 else 0
  | .first => 0
  | .last => (length : Int) - 1

/-- The whole tab-strip key handler: look up the current index of the
active tab, compute the next index, and select `tabs[nextIndex]`
(`none` models the out-of-range `undefined`). -/
def tabsKeyDown (tabs : List String) (activeTab : String) (key : TabsKey) :
    Option String :=
  let currentIndex := jsIndexOf tabs activeTab
  let nextIndex := tabsNextIndex key currentIndex tabs.length
  if nextIndex < 0 then none else tabs.get? nextIndex.toNat

/-! ### Focus trap (src/unnamed/part_008, `useFocusTrap`)

`Elem` abstracts a DOM element: `matchesSelector` abstracts matching the
`FOCUSABLE_SELECTORS` list, `visible` abstracts `offsetParent !== null`.
The trap's state records the document's focused element, the element
captured at enable time (`previousActiveElement`), whether the trap is
enabled, and the focusable list computed at enable time; the `Tab`
interceptor recomputes the list from the container contents passed with
the event.  Only the trap's own focus moves are modelled; a `Tab` it
does not intercept leaves the model state unchanged.
-/

structure Elem where
  ident : Nat
  matchesSelector : Bool
  visible : Bool
deriving DecidableEq, Repr

/-- `getFocusableElements`: query by selector, filter hidden elements. -/
def getFocusableElements (container : List Elem) : List Elem :=
  container.filter (fun e => e.matchesSelector && e.visible)

structure TrapState where
  focused : Elem
  prevFocused : Option Elem
  enabled : Bool
  snapshotAtEnable : List Elem
deriving DecidableEq, Repr

/-- The effect body on `enabled` becoming true: capture the active
element, then focus `initialFocusRef` or else the first focusable
descendant (skipped when there is none). -/
def enableTrap (s : TrapState) (container : List Elem)
    (initialFocusRef : Option Elem) : TrapState :=
  let fs := getFocusableElements container
  { focused :=
      match initialFocusRef with
      | some e => e
      | none => match fs with
        | f :: _ => f
        | [] => s.focused,
    prevFocused := some s.focused,
    enabled := true,
    snapshotAtEnable := fs }

/-- `handleKeyDown` for a `Tab` key: recompute the focusable list, return
early when it is empty, wrap from first to last on Shift+Tab and from
last to first on Tab. -/
def tabKeyStep (s : TrapState) (shiftKey : Bool) (container : List Elem) :
    TrapState :=
  if s.enabled then
    match getFocusableElements container with
    | [] => s
    | f :: rest =>
      if shiftKey && s.focused == f then
        { s with focused := (f :: rest).getLast (by simp) }
      else if !shiftKey && s.focused == (f :: rest).getLast (by simp) then
        { s with focused := f }
      else s
  else s

/-- The effect cleanup: remove the listener and restore focus to the
captured element. -/
def disableTrap (s : TrapState) : TrapState :=
  { s with
    enabled := false,
    focused := match s.prevFocused with
      | some e => e
      | none => s.focused }

/-- A sequence of intercepted `Tab` events, each carrying the container
contents at that moment. -/
def applyTabs (evs : List (Bool × List Elem)) (s : TrapState) : TrapState :=
  evs.foldl (fun st ev => tabKeyStep st ev.1 ev.2) s

/-- Concrete elements for the focus-trap witness: the element focused
before the trap, and three focusable descendants `f1, f2, f3`. -/
def elemBody : Elem := { ident := 0, matchesSelector := false, visible := true }
def elemF1 : Elem := { ident := 1, matchesSelector := true, visible := true }
def elemF2 : Elem := { ident := 2, matchesSelector := true, visible := true }
def elemF3 : Elem := { ident := 3, matchesSelector := true, visible := true }

/-! ### Dropdown registry and typeahead (src/unnamed/part_005)

`registerItem` embeds the `useCallback` on `itemsRef`; the registry is a
list of labels only.  The typeahead branch of
`DropdownMenu.handleKeyDown` accumulates lowercased printable keys into
`searchStringRef`, matches against the registered labels, and
(re)schedules a 500 ms buffer reset (`resetAt` is the pending timer's
absolute deadline).
-/

/-- JS `String.prototype.trim` embedded at the character level (the
built-in `String.trim` is not kernel-reducible). -/
def jsTrim (s : String) : String :=
  String.mk
    (((s.data.dropWhile Char.isWhitespace).reverse.dropWhile
      Char.isWhitespace).reverse)

/-- JS `String.prototype.toLowerCase` embedded at the character level. -/
def jsToLower (s : String) : String :=
  String.mk (s.data.map Char.toLower)

/-- JS `s.startsWith(pre)` embedded at the character level. -/
def jsStartsWith (s pre : String) : Bool :=
  pre.data.isPrefixOf s.data

structure MenuItem where
  label : String
  disabled : Bool
deriving DecidableEq, Repr

/-- `registerItem(label)`: return the existing index, or append and
return the new last index. -/
def registerItem (items : List String) (label : String) : List String × Nat :=
  match items.findIdx? (fun x => x == label) with
  | some i => (items, i)
  | none => (items ++ [label], items.length)

structure TypeaheadState where
  searchString : String
  activeIndex : Int
  resetAt : Option Nat
deriving DecidableEq, Repr

/-- The `default:` branch of `DropdownMenu.handleKeyDown` for a printable
key (`event.key.length === 1`, no ctrl/meta) pressed at time `now`. -/
def typeaheadKey (items : List String) (s : TypeaheadState) (key : Char)
    (now : Nat) : TypeaheadState :=
  let buf := s.searchString ++ String.mk [key.toLower]
  let matchIndex : Int :=
    match items.findIdx? (fun item => jsStartsWith (jsToLower item) buf) with
    | some i => (i : Int)
    | none => -1
  { searchString := buf,
    activeIndex := if matchIndex == (-1 : Int) then s.activeIndex else matchIndex,
    resetAt := some (now + 500) }

/-- The buffer-reset timer firing. -/
def typeaheadTimeout (s : TypeaheadState) : TypeaheadState :=
  { s with searchString := "", resetAt := none }

/-- Modelled from the spec: matching that "skips disabled items", i.e.
the first item whose label matches the buffer among the non-disabled
items.  Used only to compare the source matcher against the spec's
words; the source registry stores labels only and cannot consult
`disabled`. -/
def specSkipDisabledMatch (items : List MenuItem) (buf : String) : Option Nat :=
  items.findIdx? (fun it => !it.disabled && jsStartsWith (jsToLower it.label) buf)

/-- Concrete menu for the C7 counterexample: the first item is disabled
and both labels start with "a". -/
def cexMenuItems : List MenuItem :=
  [{ label := "Apple", disabled := true }, { label := "Apricot", disabled := false }]

/-! ### Form validation engine (src/unnamed/part_004)

The form state is an insertion-ordered association list, mirroring JS
object key order: updating an existing key keeps its position, a new key
is appended.  Event handlers read from the render snapshot (`values`,
`rules`, `field` in the closures) while their `setValues` updates apply
to the latest state; `validateFieldSnap snapshot st name` therefore
validates the value found in `snapshot` and writes the error into `st`.
-/

structure ValidationRule where
  validate : String → Bool
  message : String

structure FieldState where
  value : String
  error : Option String
  touched : Bool
deriving DecidableEq, Repr

/-- `validators.required`: `value.trim().length > 0`. -/
def requiredRule : ValidationRule :=
  { validate := fun v => decide (0 < (jsTrim v).length),
    message := "This field is required" }

/-- `validators.minLength(n)`: `value === "" || value.length >= n`. -/
def minLengthRule (n : Nat) : ValidationRule :=
  { validate := fun v => v == "" || decide (n ≤ v.length),
    message := "Must be at least " ++ toString n ++ " characters" }

/-- Association-list lookup (`m[k]`, `none` for `undefined`). -/
def alistGet {α : Type} (m : List (String × α)) (k : String) : Option α :=
  (m.find? (fun p => p.1 == k)).map (fun p => p.2)

/-- `{...prev, [k]: v}`: replace in place when the key exists (JS keeps
the original key position), otherwise append. -/
def alistSet {α : Type} : List (String × α) → String → α → List (String × α)
  | [], k, v => [(k, v)]
  | (k', v') :: rest, k, v =>
    if k' == k then (k', v) :: rest else (k', v') :: alistSet rest k v

structure FormStateM where
  values : List (String × FieldState)
  rules : List (String × List ValidationRule)
  isSubmitting : Bool

/-- `registerField`: always (re)store the rules under the name; create
the field state only when absent (`if (prev[name]) return prev`). -/
def registerField (st : FormStateM) (name : String)
    (fieldRules : List ValidationRule) : FormStateM :=
  { st with
    rules := alistSet st.rules name fieldRules,
    values :=
      match alistGet st.values name with
      | some _ => st.values
      | none => st.values ++ [(name, { value := "", error := none, touched := false })] }

/-- `{...prev[name], value}` — on an absent name JS yields an object with
only `value`, whose missing fields behave as `null`/`false`. -/
def setFieldValue (st : FormStateM) (name : String) (v : String) : FormStateM :=
  { st with
    values := alistSet st.values name
      (match alistGet st.values name with
       | some f => { f with value := v }
       | none => { value := v, error := none, touched := false }) }

def setFieldError (st : FormStateM) (name : String) (e : Option String) :
    FormStateM :=
  { st with
    values := alistSet st.values name
      (match alistGet st.values name with
       | some f => { f with error := e }
       | none => { value := "", error := e, touched := false }) }

def setFieldTouched (st : FormStateM) (name : String) : FormStateM :=
  { st with
    values := alistSet st.values name
      (match alistGet st.values name with
       | some f => { f with touched := true }
       | none => { value := "", error := none, touched := true }) }

/-- The `for (const rule of fieldRules)` loop of `validateField`: the
message of the first rule whose predicate fails, `none` if all pass. -/
def firstError (rules : List ValidationRule) (v : String) : Option String :=
  match rules with
  | [] => none
  | r :: rest => if r.validate v then firstError rest v else some r.message

/-- `values[name]?.value || ""` read from a render snapshot. -/
def snapValue (snapshot : FormStateM) (name : String) : String :=
  match alistGet snapshot.values name with
  | some f => f.value
  | none => ""

/-- `rules[name] || []` read from a render snapshot. -/
def snapRules (snapshot : FormStateM) (name : String) : List ValidationRule :=
  (alistGet snapshot.rules name).getD []

/-- The error `validateField` computes for `name` from a render
snapshot: the first failing rule's message. -/
def snapError (snapshot : FormStateM) (name : String) : Option String :=
  firstError (snapRules snapshot name) (snapValue snapshot name)

/-- `validateField(name)`: rules and value come from the render
`snapshot` the callback closed over; the `setFieldError` update applies
to the latest state `st`.  Returns the updated state and the boolean
result. -/
def validateFieldSnap (snapshot st : FormStateM) (name : String) :
    FormStateM × Bool :=
  match firstError (snapRules snapshot name) (snapValue snapshot name) with
  | some msg => (setFieldError st name (some msg), false)
  | none => (setFieldError st name none, true)

/-- `FormField.handleChange`: set the new value unconditionally; when the
render-snapshot field has an error, run `validateField` — whose closure
still reads the snapshot (pre-keystroke) value. -/
def handleChange (st : FormStateM) (name : String) (newValue : String) :
    FormStateM :=
  let st1 := setFieldValue st name newValue
  let fieldError := (alistGet st.values name).bind (fun f => f.error)
  if fieldError.isSome then (validateFieldSnap st st1 name).1 else st1

/-- `FormField.handleBlur`: mark touched, then validate. -/
def handleBlur (st : FormStateM) (name : String) : FormStateM :=
  let st1 := setFieldTouched st name
  (validateFieldSnap st st1 name).1

/-- One iteration of `validateAllFields`'s `forEach`: validate (against
the snapshot) then mark touched. -/
def validateOne (snapshot : FormStateM) (acc : FormStateM × Bool)
    (name : String) : FormStateM × Bool :=
  let res := validateFieldSnap snapshot acc.1 name
  (setFieldTouched res.1 name, acc.2 && res.2)

/-- `validateAllFields`: iterate over `Object.keys(rules)` of the render
snapshot (which is the state at submit time). -/
def validateAllFields (st : FormStateM) : FormStateM × Bool :=
  (st.rules.map (fun p => p.1)).foldl (validateOne st) (st, true)

/-- `Object.entries(values).reduce(...)`: the flat name → value mapping. -/
def flatValues (st : FormStateM) : List (String × String) :=
  st.values.map (fun p => (p.1, p.2.value))

structure SubmitResult where
  final : FormStateM
  calls : List (List (String × String))
  submittingAtCall : Bool

/-- `handleSubmit`: validate everything; stop unless valid and a handler
exists; otherwise set `isSubmitting`, call the handler with the snapshot
values, and clear `isSubmitting` in `finally`.  `handlerRejects` records
whether the awaited handler rejects; the `finally` block makes the state
effect independent of it. -/
def handleSubmit (st : FormStateM) (hasOnSubmit : Bool)
    (handlerRejects : Bool) : SubmitResult :=
  let v := validateAllFields st
  if !v.2 || !hasOnSubmit then
    { final := v.1, calls := [], submittingAtCall := false }
  else
    let st2 := { v.1 with isSubmitting := true }
    let formValues := flatValues st
    let _ := handlerRejects
    { final := { st2 with isSubmitting := false },
      calls := [formValues],
      submittingAtCall := st2.isSubmitting }

/-- Concrete registered form with one clean field carrying rules
`[required, minLength 2]` (used for blur and registration witnesses). -/
def stCleanField : FormStateM :=
  { values := [("name", { value := "", error := none, touched := false })],
    rules := [("name", [requiredRule, minLengthRule 2])],
    isSubmitting := false }

/-- Concrete all-valid form with two registered fields. -/
def stTwoValid : FormStateM :=
  { values := [("email", { value := "ab@c.de", error := none, touched := false }),
               ("pw", { value := "secret", error := none, touched := false })],
    rules := [("email", [requiredRule]), ("pw", [requiredRule, minLengthRule 2])],
    isSubmitting := false }

/-- Like `stTwoValid` but the second field is empty, failing `required`. -/
def stTwoInvalid : FormStateM :=
  { values := [("email", { value := "ab@c.de", error := none, touched := false }),
               ("pw", { value := "", error := none, touched := false })],
    rules := [("email", [requiredRule]), ("pw", [requiredRule, minLengthRule 2])],
    isSubmitting := false }

/-- Concrete state for the C6 failing input: one field with rules
`[required, minLength 2]`, value `""`, showing the required error. -/
def stC6 : FormStateM :=
  { values := [("name", { value := "", error := some "This field is required",
                          touched := true })],
    rules := [("name", [requiredRule, minLengthRule 2])],
    isSubmitting := false }

/-! ### Modal scroll lock (src/components/ui/Modal.tsx, body-overflow effect)

Each open overlay captures `document.body.style.overflow`, sets it to
`"hidden"`, and its cleanup writes the captured value back.  Under
properly nested (last-opened, first-closed) open/close sequences the
per-instance captured values behave exactly as a stack, which is how
they are modelled; `Dyck` is the set of properly nested event
sequences. -/

structure ScrollState where
  overflow : String
  savedStack : List String
deriving DecidableEq, Repr

/-- Effect body on open: capture the current overflow, set `"hidden"`. -/
def openOverlay (s : ScrollState) : ScrollState :=
  { overflow := "hidden", savedStack := s.overflow :: s.savedStack }

/-- Effect cleanup on close: write the captured value back. -/
def closeOverlay (s : ScrollState) : ScrollState :=
  match s.savedStack with
  | v :: rest => { overflow := v, savedStack := rest }
  | [] => s

inductive OverlayEv
  | openEv | closeEv
deriving DecidableEq, Repr

def stepOverlay (s : ScrollState) (e : OverlayEv) : ScrollState :=
  match e with
  | .openEv => openOverlay s
  | .closeEv => closeOverlay s

def runOverlay (trace : List OverlayEv) (s : ScrollState) : ScrollState :=
  trace.foldl stepOverlay s

/-- Properly nested open/close sequences. -/
inductive Dyck : List OverlayEv → Prop
  | nil : Dyck []
  | wrap {t : List OverlayEv} : Dyck t → Dyck (OverlayEv.openEv :: t ++ [OverlayEv.closeEv])
  | append {a b : List OverlayEv} : Dyck a → Dyck b → Dyck (a ++ b)

/-! ### Tab registry (src/components/ui/Modal.tsx `registerTab`) -/

/-- `registerTab`: append the value unless already present. -/
def registerTab (tabs : List String) (v : String) : List String :=
  if tabs.contains v then tabs else tabs ++ [v]

end FieldNotes

namespace FieldNotes

/-! ## Helper lemmas -/

/-- Generalized FIFO law: folding `addToast` over a sequence starting from
a queue within capacity yields the last `maxToasts` entries of the
concatenation.  Requires `1 ≤ maxToasts` since `slice(1)` removes exactly
one element. -/
theorem foldl_addToast_eq_drop (N : Nat) (hN : 1 ≤ N) :
    ∀ (ts q : List Toast), q.length ≤ N →
      ts.foldl (addToast N) q = (q ++ ts).drop (q.length + ts.length - N) := by
  intro ts
  induction ts with
  | nil =>
    intro q hq
    simp [Nat.sub_eq_zero_of_le hq]
  | cons t ts ih =>
    intro q hq
    rcases lt_or_eq_of_le hq with hlt | heq
    · -- below capacity: plain append
      have hstep : addToast N q t = q ++ [t] := by
        simp [addToast, Nat.not_le.mpr hlt]
      have hlen : (q ++ [t]).length ≤ N := by
        simp [Nat.succ_le_of_lt hlt]
      calc (t :: ts).foldl (addToast N) q
          = ts.foldl (addToast N) (q ++ [t]) := by rw [List.foldl_cons, hstep]
        _ = ((q ++ [t]) ++ ts).drop ((q ++ [t]).length + ts.length - N) := ih _ hlen
        _ = (q ++ t :: ts).drop (q.length + (t :: ts).length - N) := by
            simp [List.append_assoc, Nat.add_comm, Nat.add_left_comm, Nat.add_assoc]
    · -- at capacity: evict the head, then append
      have hstep : addToast N q t = q.drop 1 ++ [t] := by
        simp [addToast, heq.le, Nat.le_of_eq heq.symm]
      have hq0 : 0 < q.length := by omega
      have hqne : q ≠ [] := List.length_pos.mp hq0
      have hdlen : (q.drop 1 ++ [t]).length ≤ N := by
        simp only [List.length_append, List.length_drop, List.length_singleton]
        omega
      calc (t :: ts).foldl (addToast N) q
          = ts.foldl (addToast N) (q.drop 1 ++ [t]) := by rw [List.foldl_cons, hstep]
        _ = ((q.drop 1 ++ [t]) ++ ts).drop ((q.drop 1 ++ [t]).length + ts.length - N) :=
            ih _ hdlen
        _ = (q ++ t :: ts).drop (q.length + (t :: ts).length - N) := by
            have h1 : q.length - 1 + 1 = q.length := by omega
            have h2 : q.drop 1 ++ [t] ++ ts = (q ++ t :: ts).drop 1 := by
              rcases q with _ | ⟨a, q'⟩
              · exact absurd rfl hqne
              · simp
            have hlen1 : (q.drop 1 ++ [t]).length = q.length := by
              simp only [List.length_append, List.length_drop, List.length_cons,
                List.length_nil]
              omega
            have h3 : 1 + ((q.drop 1 ++ [t]).length + ts.length - N) =
                q.length + (t :: ts).length - N := by
              rw [hlen1]
              simp only [List.length_cons]
              omega
            rw [h2, List.drop_drop, h3]

/-- A prefix of `a ++ b` is a prefix of `a`, or is `a` followed by a
prefix of `b`. -/
theorem prefix_append_cases {α : Type} :
    ∀ (a : List α) (l : List α) (b : List α), l <+: a ++ b →
      l <+: a ∨ ∃ r, l = a ++ r ∧ r <+: b := by
  intro a
  induction a with
  | nil =>
    intro l b h
    exact Or.inr ⟨l, rfl, h⟩
  | cons x a' ih =>
    intro l b h
    cases l with
    | nil => exact Or.inl List.nil_prefix
    | cons y l' =>
      rw [List.cons_append, List.cons_prefix_cons] at h
      obtain ⟨rfl, h'⟩ := h
      rcases ih l' b h' with hl | ⟨r, rfl, hr⟩
      · exact Or.inl (List.cons_prefix_cons.mpr ⟨rfl, hl⟩)
      · exact Or.inr ⟨r, rfl, hr⟩

/-- The `Tab` interceptor never touches the captured prior-focus field. -/
theorem tabKeyStep_prevFocused (s : TrapState) (sh : Bool) (container : List Elem) :
    (tabKeyStep s sh container).prevFocused = s.prevFocused := by
  unfold tabKeyStep
  repeat' split
  all_goals rfl

/-- Neither does any sequence of intercepted `Tab` events. -/
theorem applyTabs_prevFocused (evs : List (Bool × List Elem)) (s : TrapState) :
    (applyTabs evs s).prevFocused = s.prevFocused := by
  induction evs generalizing s with
  | nil => rfl
  | cons e evs ih =>
    show (applyTabs evs (tabKeyStep s e.1 e.2)).prevFocused = s.prevFocused
    rw [ih, tabKeyStep_prevFocused]

/-- Looking up the key just written by `alistSet` yields the new value. -/
theorem alistGet_alistSet_self {α : Type} (m : List (String × α)) (k : String)
    (v : α) : alistGet (alistSet m k v) k = some v := by
  induction m with
  | nil => simp [alistGet, alistSet, List.find?]
  | cons p rest ih =>
    obtain ⟨k', v'⟩ := p
    by_cases h : k' = k
    · subst h
      simp [alistGet, alistSet, List.find?]
    · have hb : (k' == k) = false := by simp [h]
      simp only [alistSet, hb, if_false]
      simpa [alistGet, List.find?, hb] using ih

/-- Rewriting a key with the value it already holds leaves the list
unchanged. -/
theorem alistSet_self {α : Type} (m : List (String × α)) (k : String) (v : α)
    (h : alistGet m k = some v) : alistSet m k v = m := by
  induction m with
  | nil => simp [alistGet, List.find?] at h
  | cons p rest ih =>
    obtain ⟨k', v'⟩ := p
    by_cases hk : k' = k
    · subst hk
      simp [alistGet, List.find?] at h
      simp [alistSet, h]
    · have hb : (k' == k) = false := by simp [hk]
      simp only [alistGet, List.find?, hb] at h
      simp only [alistSet, hb, Bool.false_eq_true, if_false, List.cons.injEq,
        true_and]
      exact ih h

/-- `alistSet` does not disturb other keys. -/
theorem alistGet_alistSet_ne {α : Type} (m : List (String × α)) (k k' : String)
    (v : α) (h : k' ≠ k) : alistGet (alistSet m k v) k' = alistGet m k' := by
  induction m with
  | nil =>
    have hb : (k == k') = false := by simp [Ne.symm h]
    simp [alistGet, alistSet, List.find?, hb]
  | cons p rest ih =>
    obtain ⟨a, b⟩ := p
    by_cases ha : a = k
    · subst ha
      have hb : (a == k') = false := by simp [Ne.symm h]
      simp [alistGet, alistSet, List.find?, hb]
    · have hb : (a == k) = false := by simp [ha]
      by_cases ha' : a = k'
      · subst ha'
        simp [alistGet, alistSet, List.find?, hb]
      · have hb' : (a == k') = false := by simp [ha']
        simpa [alistGet, alistSet, List.find?, hb, hb'] using ih

/-- `validateField` writes exactly the snapshot-computed error and
reports whether there was none. -/
theorem validateFieldSnap_eq (snapshot st : FormStateM) (name : String) :
    validateFieldSnap snapshot st name =
      (setFieldError st name (snapError snapshot name),
       (snapError snapshot name).isNone) := by
  unfold validateFieldSnap snapError
  cases firstError (snapRules snapshot name) (snapValue snapshot name) <;> rfl

/-- Effect of error-then-touched on the named entry. -/
theorem touched_error_get_self (cur : FormStateM) (name : String)
    (e : Option String) (fld : FieldState)
    (h : alistGet cur.values name = some fld) :
    alistGet ((setFieldTouched (setFieldError cur name e) name).values) name =
      some { value := fld.value, error := e, touched := true } := by
  have h1 : (setFieldError cur name e).values =
      alistSet cur.values name { fld with error := e } := by
    simp [setFieldError, h]
  have h2 : alistGet (setFieldError cur name e).values name =
      some { fld with error := e } := by
    rw [h1]
    exact alistGet_alistSet_self cur.values name _
  simp [setFieldTouched, h2, h1, alistGet_alistSet_self]

/-- Error-then-touched on `name` leaves every other key's entry alone. -/
theorem touched_error_get_ne (cur : FormStateM) (name k : String)
    (e : Option String) (h : k ≠ name) :
    alistGet ((setFieldTouched (setFieldError cur name e) name).values) k =
      alistGet cur.values k := by
  simp [setFieldTouched, setFieldError, alistGet_alistSet_ne _ _ _ _ h]

theorem validateOne_fst (s cur : FormStateM) (b : Bool) (n : String) :
    (validateOne s (cur, b) n).1 =
      setFieldTouched (setFieldError cur n (snapError s n)) n := by
  simp [validateOne, validateFieldSnap_eq]

theorem validateOne_snd (s cur : FormStateM) (b : Bool) (n : String) :
    (validateOne s (cur, b) n).2 = (b && (snapError s n).isNone) := by
  simp [validateOne, validateFieldSnap_eq]

/-- The `forEach` of `validateAllFields`, characterized per key: every
processed name carries the snapshot-computed error and is touched; other
entries are untouched. -/
theorem foldl_validateOne_get (s : FormStateM) (names : List String) :
    ∀ (cur : FormStateM) (b : Bool) (k : String) (fld : FieldState),
      alistGet cur.values k = some fld →
      alistGet ((names.foldl (validateOne s) (cur, b)).1).values k =
        some (if k ∈ names then
                { value := fld.value, error := snapError s k, touched := true }
              else fld) := by
  induction names with
  | nil =>
    intro cur b k fld h
    simpa using h
  | cons n ns ih =>
    intro cur b k fld h
    rw [List.foldl_cons]
    by_cases hk : k = n
    · subst hk
      have hstep : alistGet ((validateOne s (cur, b) k).1).values k =
          some { value := fld.value, error := snapError s k, touched := true } := by
        rw [validateOne_fst]
        exact touched_error_get_self cur k _ fld h
      have hrec := ih (validateOne s (cur, b) k).1 (validateOne s (cur, b) k).2
        k _ hstep
      simpa using hrec
    · have hstep : alistGet ((validateOne s (cur, b) n).1).values k =
          some fld := by
        rw [validateOne_fst, touched_error_get_ne cur n k _ hk]
        exact h
      have hrec := ih (validateOne s (cur, b) n).1 (validateOne s (cur, b) n).2
        k fld hstep
      simpa [List.mem_cons, hk] using hrec

/-- The `isValid` accumulator of `validateAllFields`: true iff every
processed field's snapshot validation passes. -/
theorem foldl_validateOne_snd (s : FormStateM) (names : List String) :
    ∀ (cur : FormStateM) (b : Bool),
      (names.foldl (validateOne s) (cur, b)).2 =
        (b && names.all (fun n => (snapError s n).isNone)) := by
  induction names with
  | nil =>
    intro cur b
    simp
  | cons n ns ih =>
    intro cur b
    rw [List.foldl_cons]
    have hrec := ih (validateOne s (cur, b) n).1 (validateOne s (cur, b) n).2
    have hpair : validateOne s (cur, b) n =
        ((validateOne s (cur, b) n).1, (validateOne s (cur, b) n).2) := rfl
    rw [hpair] at hrec ⊢
    rw [hrec, validateOne_snd]
    simp [Bool.and_assoc]

theorem runOverlay_append (a b : List OverlayEv) (s : ScrollState) :
    runOverlay (a ++ b) s = runOverlay b (runOverlay a s) :=
  List.foldl_append stepOverlay s a b

/-- A properly nested open/close sequence restores the scroll state it
started from. -/
theorem dyck_run {t : List OverlayEv} (h : Dyck t) :
    ∀ s : ScrollState, runOverlay t s = s := by
  induction h with
  | nil => intro s; rfl
  | wrap _ ih =>
    intro s
    show runOverlay (_ ++ [OverlayEv.closeEv]) (openOverlay s) = s
    rw [runOverlay_append, ih]
    rfl
  | append _ _ iha ihb =>
    intro s
    rw [runOverlay_append, iha, ihb]

/-- Starting with scrolling suppressed, every prefix of a properly nested
sequence keeps it suppressed. -/
theorem dyck_hidden_prefix {t : List OverlayEv} (h : Dyck t) :
    ∀ (s : ScrollState) (p : List OverlayEv), s.overflow = "hidden" →
      p <+: t → (runOverlay p s).overflow = "hidden" := by
  induction h with
  | nil =>
    intro s p hs hp
    rw [List.prefix_nil.mp hp]
    exact hs
  | wrap ht ih =>
    intro s p hs hp
    cases p with
    | nil => exact hs
    | cons e p' =>
      rw [List.cons_append, List.cons_prefix_cons] at hp
      obtain ⟨rfl, hp'⟩ := hp
      show (runOverlay p' (openOverlay s)).overflow = "hidden"
      rcases prefix_append_cases _ p' _ hp' with hpre | ⟨r, rfl, hr⟩
      · exact ih (openOverlay s) p' rfl hpre
      · rw [runOverlay_append, dyck_run ht]
        cases r with
        | nil => rfl
        | cons e r' =>
          rw [List.cons_prefix_cons] at hr
          obtain ⟨rfl, hr'⟩ := hr
          rw [List.prefix_nil.mp hr']
          exact hs
  | append ha hb iha ihb =>
    intro s p hs hp
    rcases prefix_append_cases _ p _ hp with hpre | ⟨r, rfl, hr⟩
    · exact iha s p hs hpre
    · rw [runOverlay_append, dyck_run ha]
      exact ihb s r hs hr

end FieldNotes

namespace FieldNotes

/-! ## Claim theorems -/

/-- C1: the toast queue is a FIFO ring of capacity `maxToasts`: each
`addToast` appends at the tail, evicts exactly the head when at capacity,
the length never exceeds the maximum after any enqueue, and after any
sequence of enqueues the queue holds exactly the most recent `maxToasts`
entries in insertion order.  Holds for every configured maximum ≥ 1 (the
claim as stated, over an arbitrary configured maximum, fails at
`maxToasts = 0`, see the counterexample). -/
theorem toast_queue_fifo (N : Nat) (hN : 1 ≤ N) (ts : List Toast) :
    (∀ q t, q.length < N → addToast N q t = q ++ [t]) ∧
    (∀ q t, q.length = N → addToast N q t = q.drop 1 ++ [t]) ∧
    (∀ pre, pre <+: ts → (enqueueAll N pre).length ≤ N) ∧
    enqueueAll N ts = ts.drop (ts.length - N) := by
  refine ⟨?_, ?_, ?_, ?_⟩
  · intro q t hlt
    simp [addToast, Nat.not_le.mpr hlt]
  · intro q t heq
    simp [addToast, heq.le, Nat.le_of_eq heq.symm]
  · intro pre _
    have h := foldl_addToast_eq_drop N hN pre [] (by simp)
    have hlen : (enqueueAll N pre).length ≤ N := by
      rw [enqueueAll, h]
      simp only [List.nil_append, List.length_drop, List.length_nil, Nat.zero_add]
      omega
    exact hlen
  · have h := foldl_addToast_eq_drop N hN ts [] (by simp)
    rw [enqueueAll, h]
    simp

/-- Witness for C1 at `maxToasts = 3` and the spec's example sequence
A, B, C, D; also checks the resulting queue is `[B, C, D]` concretely. -/
theorem toast_queue_fifo_witness :
    (1 ≤ 3 ∧
      ((∀ q t, q.length < 3 → addToast 3 q t = q ++ [t]) ∧
       (∀ q t, q.length = 3 → addToast 3 q t = q.drop 1 ++ [t]) ∧
       (∀ pre, pre <+: [toastA, toastB, toastC, toastD] →
          (enqueueAll 3 pre).length ≤ 3) ∧
       enqueueAll 3 [toastA, toastB, toastC, toastD] =
         [toastA, toastB, toastC, toastD].drop
           ([toastA, toastB, toastC, toastD].length - 3))) ∧
    enqueueAll 3 [toastA, toastB, toastC, toastD] = [toastB, toastC, toastD] :=
  ⟨⟨by decide, toast_queue_fifo 3 (by decide) [toastA, toastB, toastC, toastD]⟩, rfl⟩

/-- C1 stated over an arbitrary configured maximum is false: with
`maxToasts = 0`, a single enqueue leaves a queue of length 1 > 0. -/
theorem toast_queue_fifo_cex :
    (enqueueAll 0 [toastA]).length = 1 ∧ ¬ (enqueueAll 0 [toastA]).length ≤ 0 := by
  constructor
  · rfl
  · decide

/-- C2: a cell constructed with a defined external value (controlled
mode) always reads the external value, and `set` leaves reads unchanged
while invoking `onChange` with the argument resolved (updater form
applied to the current read value); with external value undefined
(uncontrolled mode), `set x` changes subsequent reads to `x` and invokes
`onChange x` when provided. -/
theorem controllable_cell_contract {T : Type} (c : ControllableCell T)
    (next : SetStateAction T) (x v : T) :
    (c.controlledValue = some v →
       readValue c = v ∧
       readValue (setValue c next) = v ∧
       (c.hasOnChange = true →
          (setValue c next).onChangeCalls =
            c.onChangeCalls ++ [resolveAction next (readValue c)])) ∧
    (c.controlledValue = none →
       readValue (setValue c (SetStateAction.value x)) = x ∧
       readValue (setValue c next) = resolveAction next (readValue c) ∧
       (c.hasOnChange = true →
          (setValue c next).onChangeCalls =
            c.onChangeCalls ++ [resolveAction next (readValue c)])) := by
  constructor
  · intro hc
    refine ⟨by simp [readValue, hc], ?_, ?_⟩
    · cases hoc : c.hasOnChange <;>
        simp [setValue, readValue, hc, hoc]
    · intro hoc
      simp [setValue, readValue, hc, hoc]
  · intro hc
    refine ⟨?_, ?_, ?_⟩
    · cases hoc : c.hasOnChange <;>
        simp [setValue, readValue, resolveAction, hc, hoc]
    · cases hoc : c.hasOnChange <;>
        simp [setValue, readValue, hc, hoc]
    · intro hoc
      simp [setValue, readValue, hc, hoc]

/-- Witness for C2: a controlled cell over `Nat` with external value 5
keeps reading 5 after `set 9` but logs `onChange 9`; an uncontrolled
cell reads 9 after `set 9` and logs `onChange 9`. -/
theorem controllable_cell_contract_witness :
    readValue (setValue (⟨some 5, 0, true, []⟩ : ControllableCell Nat)
      (SetStateAction.value 9)) = 5 ∧
    (setValue (⟨some 5, 0, true, []⟩ : ControllableCell Nat)
      (SetStateAction.value 9)).onChangeCalls = [9] ∧
    readValue (setValue (⟨none, 0, true, []⟩ : ControllableCell Nat)
      (SetStateAction.value 9)) = 9 ∧
    (setValue (⟨none, 0, true, []⟩ : ControllableCell Nat)
      (SetStateAction.value 9)).onChangeCalls = [9] := by
  have hc := controllable_cell_contract
    (⟨some 5, 0, true, []⟩ : ControllableCell Nat) (SetStateAction.value 9) 9 5
  have hu := controllable_cell_contract
    (⟨none, 0, true, []⟩ : ControllableCell Nat) (SetStateAction.value 9) 9 5
  obtain ⟨-, hr, hcall⟩ := hc.1 rfl
  obtain ⟨hx, -, hucall⟩ := hu.2 rfl
  exact ⟨hr, by rw [hcall rfl]; rfl, hx, by rw [hucall rfl]; rfl⟩

/-- C3: both roving key handlers (the tab strip's and the dropdown
menu's) compute the next index exactly as the spec's mapping
("previous" → `i>0 ? i-1 : L-1`; "next" → `i<L-1 ? i+1 : 0`;
"first" → 0; "last" → L-1), and over items `[a,b,c]` starting inactive
"next" selects a, then b, wraps from c to a, and "previous" from a
wraps to c. -/
theorem roving_key_mapping (i : Int) (L : Nat) :
    tabsNextIndex .arrowLeft i L = rovingSpecIndex .previous i L ∧
    tabsNextIndex .arrowRight i L = rovingSpecIndex .next i L ∧
    tabsNextIndex .homeKey i L = rovingSpecIndex .first i L ∧
    tabsNextIndex .endKey i L = rovingSpecIndex .last i L ∧
    menuNextIndex .arrowUp i L = rovingSpecIndex .previous i L ∧
    menuNextIndex .arrowDown i L = rovingSpecIndex .next i L ∧
    menuNextIndex .homeKey i L = rovingSpecIndex .first i L ∧
    menuNextIndex .endKey i L = rovingSpecIndex .last i L ∧
    tabsKeyDown ["a", "b", "c"] "" .arrowRight = some "a" ∧
    tabsKeyDown ["a", "b", "c"] "a" .arrowRight = some "b" ∧
    tabsKeyDown ["a", "b", "c"] "c" .arrowRight = some "a" ∧
    tabsKeyDown ["a", "b", "c"] "a" .arrowLeft = some "c" ∧
    menuNextIndex .arrowDown (-1) 3 = 0 ∧
    menuNextIndex .arrowDown 0 3 = 1 ∧
    menuNextIndex .arrowDown 2 3 = 0 ∧
    menuNextIndex .arrowUp 0 3 = 2 := by
  refine ⟨rfl, rfl, rfl, rfl, rfl, rfl, rfl, rfl, ?_, ?_, ?_, ?_, ?_, ?_, ?_, ?_⟩ <;>
    decide

/-- C4: while the trap is enabled, a forward Tab from the last focusable
descendant wraps to the first and a backward Tab from the first wraps to
the last, computed from the container contents at the event (independent
of the enable-time snapshot); with zero focusable descendants the
interceptor is a no-op; and after any sequence of Tab events, disabling
restores focus to the element focused at enable time. -/
theorem focus_trap_contract (s : TrapState) (container : List Elem) (sh : Bool)
    (f : Elem) (rest : List Elem) :
    (getFocusableElements container = [] → tabKeyStep s sh container = s) ∧
    (s.enabled = true → getFocusableElements container = f :: rest →
       (s.focused = (f :: rest).getLast (by simp) →
          (tabKeyStep s false container).focused = f) ∧
       (s.focused = f →
          (tabKeyStep s true container).focused = (f :: rest).getLast (by simp))) ∧
    (∀ snap, (tabKeyStep { s with snapshotAtEnable := snap } sh container).focused =
       (tabKeyStep s sh container).focused) ∧
    (∀ init evs,
       (disableTrap (applyTabs evs (enableTrap s container init))).focused =
         s.focused) := by
  refine ⟨?_, ?_, ?_, ?_⟩
  · intro hfs
    unfold tabKeyStep
    rw [hfs]
    cases s.enabled <;> rfl
  · intro he hfs
    constructor
    · intro hfoc
      unfold tabKeyStep
      rw [hfs, he]
      simp only [if_true, Bool.false_and, Bool.false_eq_true, if_false,
        Bool.not_false, Bool.true_and, hfoc, beq_self_eq_true, if_true]
    · intro hfoc
      unfold tabKeyStep
      rw [hfs, he]
      simp only [if_true, Bool.true_and, hfoc, beq_self_eq_true, if_true]
  · intro snap
    unfold tabKeyStep
    cases he : s.enabled <;>
      cases hfs : getFocusableElements container <;>
        simp only [he] <;>
          repeat' split
    all_goals simp_all
  · intro init evs
    rw [disableTrap, applyTabs_prevFocused]
    simp [enableTrap]

/-- Witness for C4 over a trap enabled on `[f1, f2, f3]` with prior
focus on the body element: forward Tab from f3 lands on f1, backward Tab
from f1 lands on f3, a Tab with an emptied container is a no-op, and
disabling after those events restores focus to the body element. -/
theorem focus_trap_contract_witness :
    (getFocusableElements [] =
        ([] : List Elem) →
      tabKeyStep ⟨elemF3, some elemBody, true, []⟩ false [] =
        ⟨elemF3, some elemBody, true, []⟩) ∧
    ((⟨elemF3, some elemBody, true, []⟩ : TrapState).enabled = true →
      getFocusableElements [elemF1, elemF2, elemF3] = elemF1 :: [elemF2, elemF3] →
      ((⟨elemF3, some elemBody, true, []⟩ : TrapState).focused =
          (elemF1 :: [elemF2, elemF3]).getLast (by simp) →
        (tabKeyStep ⟨elemF3, some elemBody, true, []⟩ false
            [elemF1, elemF2, elemF3]).focused = elemF1) ∧
      ((⟨elemF3, some elemBody, true, []⟩ : TrapState).focused = elemF1 →
        (tabKeyStep ⟨elemF3, some elemBody, true, []⟩ true
            [elemF1, elemF2, elemF3]).focused =
          (elemF1 :: [elemF2, elemF3]).getLast (by simp))) ∧
    (∀ snap,
      (tabKeyStep ⟨elemF3, some elemBody, true, snap⟩ false
          [elemF1, elemF2, elemF3]).focused =
        (tabKeyStep ⟨elemF3, some elemBody, true, []⟩ false
          [elemF1, elemF2, elemF3]).focused) ∧
    (∀ init evs,
      (disableTrap (applyTabs evs
          (enableTrap ⟨elemBody, none, false, []⟩ [elemF1, elemF2, elemF3]
            init))).focused = elemBody) ∧
    (tabKeyStep ⟨elemF3, some elemBody, true, []⟩ false
        [elemF1, elemF2, elemF3]).focused = elemF1 := by
  have h1 := focus_trap_contract ⟨elemF3, some elemBody, true, []⟩ [] false
    elemF1 [elemF2, elemF3]
  have h2 := focus_trap_contract ⟨elemF3, some elemBody, true, []⟩
    [elemF1, elemF2, elemF3] false elemF1 [elemF2, elemF3]
  have h3 := focus_trap_contract ⟨elemBody, none, false, []⟩
    [elemF1, elemF2, elemF3] false elemF1 [elemF2, elemF3]
  refine ⟨fun _ => h1.1 (by decide), h2.2.1, h2.2.2.1, h3.2.2.2, ?_⟩
  exact (h2.2.1 rfl (by decide)).1 (by decide)

/-- C8: on submit, every registered field is validated against its
snapshot value and marked touched (errors populated per field as the
first failing rule's message); when every field passes and a handler
exists, the handler is invoked exactly once with the flat name → value
mapping, with `isSubmitting` true during the call and false once it
settles, independently of whether the handler resolves or rejects; when
any field fails, the handler is not invoked. -/
theorem submit_contract (st : FormStateM) (hasOnSubmit o o2 : Bool)
    (name : String) (fld : FieldState) :
    handleSubmit st hasOnSubmit o = handleSubmit st hasOnSubmit o2 ∧
    ((validateAllFields st).2 = true → hasOnSubmit = true →
      (handleSubmit st hasOnSubmit o).calls = [flatValues st] ∧
      (handleSubmit st hasOnSubmit o).submittingAtCall = true ∧
      (handleSubmit st hasOnSubmit o).final.isSubmitting = false) ∧
    ((validateAllFields st).2 = false →
      (handleSubmit st hasOnSubmit o).calls = []) ∧
    (validateAllFields st).2 =
      (st.rules.map (fun p => p.1)).all (fun n => (snapError st n).isNone) ∧
    (alistGet st.values name = some fld →
      alistGet ((validateAllFields st).1).values name =
        some (if name ∈ st.rules.map (fun p => p.1) then
                { value := fld.value, error := snapError st name,
                  touched := true }
              else fld)) ∧
    (handleSubmit st hasOnSubmit o).final.values =
      ((validateAllFields st).1).values := by
  refine ⟨rfl, ?_, ?_, ?_, ?_, ?_⟩
  · intro hv hh
    simp [handleSubmit, hv, hh]
  · intro hv
    simp [handleSubmit, hv]
  · have h := foldl_validateOne_snd st (st.rules.map (fun p => p.1)) st true
    rw [validateAllFields] at *
    rw [h]
    simp
  · intro h
    exact foldl_validateOne_get st (st.rules.map (fun p => p.1)) st true
      name fld h
  · cases hb : (!(validateAllFields st).2 || !hasOnSubmit) <;>
      simp [handleSubmit, hb]

/-- Witness for C8 on concrete two-field forms: the all-valid form's
submit calls the handler once with the flat values, `isSubmitting` is
true at the call and false afterwards, and the result is identical for
a resolving and a rejecting handler; the form whose "pw" field fails
`required` calls no handler, marks both fields touched, and stores the
required message on "pw" only. -/
theorem submit_contract_witness :
    (handleSubmit stTwoValid true false).calls =
      [[("email", "ab@c.de"), ("pw", "secret")]] ∧
    (handleSubmit stTwoValid true false).submittingAtCall = true ∧
    (handleSubmit stTwoValid true false).final.isSubmitting = false ∧
    handleSubmit stTwoValid true false = handleSubmit stTwoValid true true ∧
    (handleSubmit stTwoInvalid true false).calls = [] ∧
    alistGet ((validateAllFields stTwoInvalid).1).values "pw" =
      some { value := "", error := some "This field is required",
             touched := true } ∧
    alistGet ((validateAllFields stTwoInvalid).1).values "email" =
      some { value := "ab@c.de", error := none, touched := true } := by
  have hv := submit_contract stTwoValid true false true "email"
    { value := "ab@c.de", error := none, touched := false }
  have hi := submit_contract stTwoInvalid true false true "pw"
    { value := "", error := none, touched := false }
  have hi2 := submit_contract stTwoInvalid true false true "email"
    { value := "ab@c.de", error := none, touched := false }
  obtain ⟨hcalls, hsac, hclear⟩ := hv.2.1 (by decide) rfl
  refine ⟨hcalls, hsac, hclear, hv.1, hi.2.2.1 (by decide), ?_, ?_⟩
  · exact (hi.2.2.2.2.1 rfl).trans (by decide)
  · exact (hi2.2.2.2.2.1 rfl).trans (by decide)

/-- C9: the body scroll lock composes like a save/restore stack: opening
an overlay records the current overflow value and sets `"hidden"`,
closing writes back exactly the recorded value, any properly nested
open/close sequence wrapped by a first overlay restores the state that
first overlay captured, and scrolling stays suppressed at every point
while at least the outer overlay is open. -/
theorem scroll_lock_nested (v0 : String) (stack : List String)
    (t : List OverlayEv) (h : Dyck t) :
    (openOverlay ⟨v0, stack⟩).overflow = "hidden" ∧
    closeOverlay (openOverlay ⟨v0, stack⟩) = ⟨v0, stack⟩ ∧
    runOverlay (OverlayEv.openEv :: t ++ [OverlayEv.closeEv]) ⟨v0, stack⟩ =
      ⟨v0, stack⟩ ∧
    (∀ p, p <+: OverlayEv.openEv :: t →
       p ≠ [] → (runOverlay p ⟨v0, stack⟩).overflow = "hidden") := by
  refine ⟨rfl, rfl, ?_, ?_⟩
  · exact dyck_run (Dyck.wrap h) ⟨v0, stack⟩
  · intro p hp hne
    cases p with
    | nil => exact absurd rfl hne
    | cons e p' =>
      rw [List.cons_prefix_cons] at hp
      obtain ⟨rfl, hp'⟩ := hp
      exact dyck_hidden_prefix h (openOverlay ⟨v0, stack⟩) p' rfl hp'

/-- C5: validation applies a field's rules in registration order,
stopping at the first failing predicate, whose message becomes the
field's (single) error; if no rule fails the error is set to `null`.
The error written is exactly the first failing rule's message
(`find?`), and the example field with rules `[required, minLength 2]`
and value `""` shows the required message on blur, not the minLength
one. -/
theorem field_validation_short_circuit (rules : List ValidationRule)
    (v : String) (st : FormStateM) (name : String) (fld : FieldState)
    (rs : List ValidationRule) :
    firstError rules v =
      (rules.find? (fun r => !(r.validate v))).map (fun r => r.message) ∧
    (firstError rules v = none ↔ ∀ r ∈ rules, r.validate v = true) ∧
    (alistGet st.values name = some fld → alistGet st.rules name = some rs →
       alistGet ((validateFieldSnap st st name).1).values name =
         some { fld with error := firstError rs fld.value } ∧
       (validateFieldSnap st st name).2 = (firstError rs fld.value).isNone) ∧
    alistGet (handleBlur stCleanField "name").values "name" =
      some { value := "", error := some "This field is required",
             touched := true } ∧
    some "This field is required" ≠ some (minLengthRule 2).message := by
  refine ⟨?_, ?_, ?_, by decide, by decide⟩
  · induction rules with
    | nil => rfl
    | cons r rest ih =>
      by_cases h : r.validate v <;> simp [firstError, List.find?, h, ih]
  · induction rules with
    | nil => simp [firstError]
    | cons r rest ih =>
      by_cases h : r.validate v <;> simp [firstError, h, ih]
  · intro hv hr
    have hsr : snapRules st name = rs := by simp [snapRules, hr]
    have hsv : snapValue st name = fld.value := by simp [snapValue, hv]
    cases hfe : firstError rs fld.value <;>
      simp [validateFieldSnap, hsr, hsv, hfe, setFieldError, hv,
        alistGet_alistSet_self]

/-- Witness for C5 on the registered one-field form: blurring the empty
required+minLength field stores the required message and reports
failure. -/
theorem field_validation_short_circuit_witness :
    alistGet ((validateFieldSnap stCleanField stCleanField "name").1).values
        "name" =
      some { value := "", error := some "This field is required",
             touched := false } ∧
    (validateFieldSnap stCleanField stCleanField "name").2 = false := by
  have h := (field_validation_short_circuit [requiredRule, minLengthRule 2] ""
    stCleanField "name" { value := "", error := none, touched := false }
    [requiredRule, minLengthRule 2]).2.2.1 rfl rfl
  exact ⟨h.1, h.2⟩

/-- C6 evaluated at the failing input: the field shows the required
error on value `""`; typing `"a"` updates the value but, because
`validateField` closes over the pre-keystroke render state, it
re-validates the old value `""` and keeps the required message, while
validating the new value `"a"` (as the claim requires) would produce
the minLength message. -/
theorem typing_stale_validation :
    alistGet (handleChange stC6 "name" "a").values "name" =
      some { value := "a", error := some "This field is required",
             touched := true } ∧
    firstError [requiredRule, minLengthRule 2] "a" =
      some "Must be at least 2 characters" := by
  exact ⟨by decide, by decide⟩

/-- C7's claim that typeahead matching skips disabled items is false:
with a disabled "Apple" before an enabled "Apricot", typing "a" selects
index 0 — the disabled item — because the registry stores labels only;
skipping disabled items would select index 1. -/
theorem typeahead_disabled_cex :
    (typeaheadKey (cexMenuItems.map (fun it => it.label))
        { searchString := "", activeIndex := -1, resetAt := none }
        'a' 0).activeIndex = 0 ∧
    (cexMenuItems.get ⟨0, by decide⟩).disabled = true ∧
    specSkipDisabledMatch cexMenuItems "a" = some 1 := by
  exact ⟨by decide, by decide, by decide⟩

/-- C7 amended: each printable keystroke appends its lowercased
character to the search buffer and schedules the buffer reset 500 ms
later (replacing any pending reset); the active item becomes the first
registered label (disabled items are not skipped — the registry stores
labels only) whose lowercased form starts with the buffer; when nothing
matches the active selection is unchanged; the timer firing clears the
buffer.  Includes the spec's "ap" → Apple and "b" → Banana examples. -/
theorem typeahead_contract (labels : List String) (s : TypeaheadState)
    (key : Char) (now : Nat) (i : Nat) :
    (typeaheadKey labels s key now).searchString =
      s.searchString ++ String.mk [key.toLower] ∧
    (typeaheadKey labels s key now).resetAt = some (now + 500) ∧
    (labels.findIdx? (fun l => jsStartsWith (jsToLower l)
        (s.searchString ++ String.mk [key.toLower])) = some i →
      (typeaheadKey labels s key now).activeIndex = (i : Int)) ∧
    (labels.findIdx? (fun l => jsStartsWith (jsToLower l)
        (s.searchString ++ String.mk [key.toLower])) = none →
      (typeaheadKey labels s key now).activeIndex = s.activeIndex) ∧
    (typeaheadTimeout (typeaheadKey labels s key now)).searchString = "" ∧
    (typeaheadKey ["Apple", "Apricot", "Banana"]
      { searchString := "a", activeIndex := -1, resetAt := some 300 }
      'p' 350).activeIndex = 0 ∧
    (typeaheadKey ["Apple", "Apricot", "Banana"]
      { searchString := "", activeIndex := -1, resetAt := none }
      'b' 0).activeIndex = 2 := by
  refine ⟨rfl, rfl, ?_, ?_, rfl, by decide, by decide⟩
  · intro h
    simp only [typeaheadKey, h]
    have hne : ((i : Int) == (-1 : Int)) = false := by
      rw [beq_eq_false_iff_ne]
      omega
    simp [hne]
  · intro h
    simp [typeaheadKey, h]

/-- Witness for C7 on the spec's label set: after "a" then "p" the
active item is Apple (index 0), with the buffer "ap" and a reset
scheduled 500 ms after the second keystroke. -/
theorem typeahead_contract_witness :
    (typeaheadKey ["Apple", "Apricot", "Banana"]
      { searchString := "a", activeIndex := -1, resetAt := some 300 }
      'p' 350).activeIndex = (0 : Int) ∧
    (typeaheadKey ["Apple", "Apricot", "Banana"]
      { searchString := "a", activeIndex := -1, resetAt := some 300 }
      'p' 350).searchString = "ap" ∧
    (typeaheadKey ["Apple", "Apricot", "Banana"]
      { searchString := "a", activeIndex := -1, resetAt := some 300 }
      'p' 350).resetAt = some 850 := by
  have h := typeahead_contract ["Apple", "Apricot", "Banana"]
    { searchString := "a", activeIndex := -1, resetAt := some 300 } 'p' 350 0
  exact ⟨h.2.2.1 (by decide), h.1, h.2.1⟩

/-- C10: registration into each dynamic registry is idempotent:
re-registering a tab value leaves the tab list unchanged, re-registering
a menu item label returns the existing index without modifying the
registry, and re-registering a form field name preserves the field's
value/error/touched state (and, re-registered with the rules it already
holds, the rules registry too). -/
theorem registration_idempotent (tabs : List String) (v : String)
    (items : List String) (label : String) (i : Nat)
    (st : FormStateM) (name : String) (rs : List ValidationRule)
    (fld : FieldState) :
    (tabs.contains v = true → registerTab tabs v = tabs) ∧
    (items.findIdx? (fun x => x == label) = some i →
      registerItem items label = (items, i)) ∧
    (alistGet st.values name = some fld →
      (registerField st name rs).values = st.values ∧
      (registerField st name rs).isSubmitting = st.isSubmitting ∧
      (alistGet st.rules name = some rs →
        (registerField st name rs).rules = st.rules)) := by
  refine ⟨?_, ?_, ?_⟩
  · intro h
    have hm : v ∈ tabs := by simpa using h
    simp [registerTab, hm]
  · intro h
    simp [registerItem, h]
  · intro hv
    refine ⟨?_, rfl, ?_⟩
    · simp [registerField, hv]
    · intro hr
      simp [registerField, alistSet_self st.rules name rs hr]

/-- Witness for C10: re-registering the tab "demo", the menu item
"Edit" (existing index 0), and the form field "name" with its existing
rules, each leaves the registry unchanged. -/
theorem registration_idempotent_witness :
    registerTab ["demo", "source"] "demo" = ["demo", "source"] ∧
    registerItem ["Edit", "Copy"] "Edit" = (["Edit", "Copy"], 0) ∧
    (registerField stCleanField "name"
      [requiredRule, minLengthRule 2]).values = stCleanField.values ∧
    (registerField stCleanField "name"
      [requiredRule, minLengthRule 2]).rules = stCleanField.rules := by
  have h := registration_idempotent ["demo", "source"] "demo" ["Edit", "Copy"]
    "Edit" 0 stCleanField "name" [requiredRule, minLengthRule 2]
    { value := "", error := none, touched := false }
  obtain ⟨hv, -, hr⟩ := h.2.2 rfl
  exact ⟨h.1 (by decide), h.2.1 (by decide), hv, hr rfl⟩

/-- Witness for C9: one overlay opens over `overflow = "auto"`, a nested
overlay opens and closes, the outer closes; the final overflow is
`"auto"` again and every intermediate state while open shows
`"hidden"`. -/
theorem scroll_lock_nested_witness :
    runOverlay [OverlayEv.openEv, OverlayEv.openEv, OverlayEv.closeEv,
      OverlayEv.closeEv] ⟨"auto", []⟩ = ⟨"auto", []⟩ ∧
    (runOverlay [OverlayEv.openEv] ⟨"auto", []⟩).overflow = "hidden" ∧
    (runOverlay [OverlayEv.openEv, OverlayEv.openEv] ⟨"auto", []⟩).overflow =
      "hidden" ∧
    (runOverlay [OverlayEv.openEv, OverlayEv.openEv, OverlayEv.closeEv]
      ⟨"auto", []⟩).overflow = "hidden" := by
  have h := scroll_lock_nested "auto" [] [OverlayEv.openEv, OverlayEv.closeEv]
    (Dyck.wrap Dyck.nil)
  refine ⟨h.2.2.1, ?_, ?_, ?_⟩
  · exact h.2.2.2 [OverlayEv.openEv] (by simp) (by simp)
  · exact h.2.2.2 [OverlayEv.openEv, OverlayEv.openEv]
      (by simp [List.cons_prefix_cons]) (by simp)
  · exact h.2.2.2 [OverlayEv.openEv, OverlayEv.openEv, OverlayEv.closeEv]
      (by simp [List.cons_prefix_cons]) (by simp)

end FieldNotes
